import Mathlib

/-!
Verification of the orc-sh/kit schedule and execution-history core.

Shallow embedding of the cron-expression utilities
(`src/apps/web/src/lib/cron-utils.ts`) and of the paginated
execution-history loader of the webhook details page
(`src/unnamed/part_003`, with the legacy variant in
`src/apps/web/src/pages/webhook-details/index.tsx`).
External npm collaborators (cron-parser, cronstrue) are not part of the
repository; where a theorem depends on their behaviour they are either
abstracted into parameters constrained by hypotheses or modelled from the
spec, and the corresponding definitions say so in their doc comments.
-/

namespace Kit

/-- One wire execution record as delivered by
`GET /api/schedules/:id/executions` (spec section 6). Only the fields the
verified components inspect are carried. -/
structure WireExecution where
  id : String
  status : String
  response_code : Option Nat
  duration_ms : Option Nat
  created_at : Nat
  deriving DecidableEq, Repr

/-- One page of the executions response: `{ data, meta: { total } }`. -/
structure ExecutionsPage where
  data : List WireExecution
  total : Nat
  deriving DecidableEq, Repr

/-- The pagination state held by `WebhookDetailsPage` (part_003):
the `useState` cells `loadedExecutions`, `totalExecutions`,
`currentOffset`, `hasMore`, `isLoadingMore`. -/
structure LoaderState where
  loadedExecutions : List WireExecution
  totalExecutions : Nat
  currentOffset : Nat
  hasMore : Bool
  isLoadingMore : Bool
  deriving DecidableEq, Repr

/-- The `useState` defaults: `[]`, `0`, `0`, `true`, `false`. -/
def initialLoaderState : LoaderState :=
  { loadedExecutions := []
    totalExecutions := 0
    currentOffset := 0
    hasMore := true
    isLoadingMore := false }

/-- The initialize-loaded-executions effect (part_003 lines 873 to 887):
when the offset-0 page is present and either nothing is loaded yet or a
refresh forces it, the page contents replace the list, the server total is
recorded, and `hasMore` is set from the page length against the page size
20. -/
def initializeEffect (executionsData : ExecutionsPage) (isRefreshing : Bool)
    (s : LoaderState) : LoaderState :=
  if s.currentOffset = 0 ∧ (s.loadedExecutions.length = 0 ∨ isRefreshing = true) then
    { s with
      loadedExecutions := executionsData.data
      totalExecutions := executionsData.total
      hasMore := executionsData.data.length == 20
      isLoadingMore := false }
  else s

/-- The append-more-executions effect (part_003 lines 890 to 906): a page
fetched for `currentOffset > 0` is appended after filtering out records
whose id is already present; `hasMore` is recomputed from the raw page
length and `totalExecutions` is deliberately left alone. An empty page
just clears `hasMore`. A page arriving while `currentOffset = 0` does
nothing. -/
def appendEffect (moreExecutionsData : ExecutionsPage) (s : LoaderState) : LoaderState :=
  if s.currentOffset > 0 then
    if moreExecutionsData.data.length > 0 then
      { s with
        loadedExecutions := s.loadedExecutions ++
          moreExecutionsData.data.filter
            (fun e => !((s.loadedExecutions.map (fun x => x.id)).contains e.id))
        hasMore := moreExecutionsData.data.length == 20
        isLoadingMore := false }
    else
      { s with hasMore := false, isLoadingMore := false }
  else s

/-- `loadMore` (part_003 lines 917 to 925). `queryLoading` is
`isLoadingMoreExecutionsRef.current`, the loading flag of the load-more
query. The returned flag records whether a new fetch was triggered: the
offset bump changes the query key, which is what issues the request. -/
def loadMore (queryLoading : Bool) (s : LoaderState) : LoaderState × Bool :=
  if !s.isLoadingMore && s.hasMore && !queryLoading then
    ({ s with isLoadingMore := true, currentOffset := s.currentOffset + 20 }, true)
  else (s, false)

/-- The synchronous reset at the start of the refresh onClick handler
(part_003 lines 1358 to 1386): offset back to 0, `hasMore` to true,
`isLoadingMore` cleared, the list emptied. -/
def refreshReset (s : LoaderState) : LoaderState :=
  { s with
    currentOffset := 0
    hasMore := true
    isLoadingMore := false
    loadedExecutions := [] }

/-- The tail of the refresh onClick handler: the awaited refetch result is
written back when it carries rows; otherwise the total is zeroed and
`hasMore` cleared. -/
def refreshComplete (result : Option ExecutionsPage) (s : LoaderState) : LoaderState :=
  match result with
  | some page =>
    if page.data.length > 0 then
      { s with
        loadedExecutions := page.data
        totalExecutions := page.total
        hasMore := page.data.length == 20 }
    else
      { s with totalExecutions := 0, hasMore := false }
  | none => { s with totalExecutions := 0, hasMore := false }

/-- The reset-on-id-change effect (part_003 lines 968 to 975): every piece
of pagination state returns to its default. -/
def idChangeReset (_s : LoaderState) : LoaderState := initialLoaderState

/-- One observable loader step of `WebhookDetailsPage`. -/
inductive LoaderOp where
  | initLoad (page : ExecutionsPage) (isRefreshing : Bool)
  | appendPage (page : ExecutionsPage)
  | callLoadMore (queryLoading : Bool)
  | refreshStart
  | refreshDone (result : Option ExecutionsPage)
  | idChange
  deriving Repr

/-- Applies one loader step to the state. -/
def applyOp (s : LoaderState) : LoaderOp → LoaderState
  | .initLoad page r => initializeEffect page r s
  | .appendPage page => appendEffect page s
  | .callLoadMore q => (loadMore q s).1
  | .refreshStart => refreshReset s
  | .refreshDone result => refreshComplete result s
  | .idChange => idChangeReset s

/-- Applies a sequence of loader steps from left to right. -/
def applyOps (s : LoaderState) (ops : List LoaderOp) : LoaderState :=
  ops.foldl applyOp s

/-- The pages a loader step delivers from the server. -/
def opPages : LoaderOp → List ExecutionsPage
  | .initLoad page _ => [page]
  | .appendPage page => [page]
  | .refreshDone (some page) => [page]
  | _ => []

/-- A server page whose records carry pairwise distinct ids (the data
model declares `JobExecution.id` unique). -/
def pageIdsNodup (page : ExecutionsPage) : Prop :=
  (page.data.map (fun e => e.id)).Nodup

instance (page : ExecutionsPage) : Decidable (pageIdsNodup page) := by
  unfold pageIdsNodup; infer_instance

/-- The loaded list carries pairwise distinct ids. -/
def loadedIdsNodup (s : LoaderState) : Prop :=
  (s.loadedExecutions.map (fun e => e.id)).Nodup

instance (s : LoaderState) : Decidable (loadedIdsNodup s) := by
  unfold loadedIdsNodup; infer_instance

/-- Counts the completed page fetches a step sequence records: the
initial and refresh page deliveries plus the load-more page deliveries. -/
def completedFetches (ops : List LoaderOp) : Nat :=
  (ops.filter (fun op =>
    match op with
    | .initLoad _ _ => true
    | .appendPage _ => true
    | .refreshDone (some _) => true
    | _ => false)).length

/-- Folds the loader steps while counting the `loadMore` calls accepted by
the guard since the last reset (refresh or id change). -/
def applyOpCount : LoaderState × Nat → LoaderOp → LoaderState × Nat
  | (s, n), .callLoadMore q =>
    ((loadMore q s).1, if (loadMore q s).2 then n + 1 else n)
  | (s, _), .refreshStart => (refreshReset s, 0)
  | (s, _), .idChange => (idChangeReset s, 0)
  | (s, n), op => (applyOp s op, n)

/-- The visual class a status badge can take, one constructor per branch
of the two `getStatusBadge` implementations. -/
inductive BadgeStyle where
  | queuedBadge
  | runningBadge
  | timeoutBadge
  | successBadge
  | clientErrorBadge
  | failureBadge
  deriving DecidableEq, Repr

/-- `getStatusBadge` of part_003 (lines 1005 to 1055), reduced to the
style class it picks: status-based badges first (queued, running,
timeout), then the HTTP code ranges, then the red failure badge. -/
def getStatusBadge (status : String) (statusCode : Nat) : BadgeStyle :=
  if status = "queued" then .queuedBadge
  else if status = "running" then .runningBadge
  else if status = "timeout" then .timeoutBadge
  else if 200 ≤ statusCode ∧ statusCode < 300 then .successBadge
  else if 400 ≤ statusCode ∧ statusCode < 500 then .clientErrorBadge
  else .failureBadge

/-- `getStatusBadge` of the legacy details page
(`src/apps/web/src/pages/webhook-details/index.tsx` lines 129 to 152):
the status argument is ignored, only the code ranges matter. -/
def getStatusBadgeLegacy (_status : String) (statusCode : Nat) : BadgeStyle :=
  if 200 ≤ statusCode ∧ statusCode < 300 then .successBadge
  else if 400 ≤ statusCode ∧ statusCode < 500 then .clientErrorBadge
  else .failureBadge

/-- Whether the first character list begins the second one. -/
def charsBegin : List Char → List Char → Bool
  | [], _ => true
  | _ :: _, [] => false
  | a :: asl, b :: bs => a == b && charsBegin asl bs

/-- Substring search over character lists. -/
def charsInclude (pat : List Char) : List Char → Bool
  | [] => charsBegin pat []
  | c :: cs => charsBegin pat (c :: cs) || charsInclude pat cs

/-- Substring containment on strings, the JS `String.prototype.includes`. -/
def strIncludes (hay pat : String) : Bool :=
  charsInclude pat.data hay.data

/-- The JS `String.prototype.startsWith`. -/
def strStartsWith (s pat : String) : Bool :=
  charsBegin pat.data s.data

/-- The JS `String.prototype.toLowerCase` over the ASCII range the code
compares against. -/
def strToLower (s : String) : String :=
  String.mk (s.data.map Char.toLower)

/-- The JS `String.prototype.substring(n)`. -/
def strDrop (s : String) (n : Nat) : String :=
  String.mk (s.data.drop n)

/-- The JS `Array.prototype.join(' ')`. -/
def joinSpace : List String → String
  | [] => ""
  | [x] => x
  | x :: xs => x ++ " " ++ joinSpace xs

/-- The phrase the step-pattern branch of the describer interpolates:
Every N second, pluralized unless the interval reads 1, where the interval
is the second field with its two leading step characters removed. -/
def stepSecondsBase (sf : String) : String :=
  "Every " ++ strDrop sf 2 ++ " second" ++ (if strDrop sf 2 != "1" then "s" else "")

/-- The tokenizer of `cron.trim().split(/\s+/)`: runs of whitespace
separate tokens, so a trimmed string yields no empty tokens. `acc` holds
the characters of the token being read, in reverse. -/
def splitWsAux : List Char → List Char → List String
  | [], acc => if acc.isEmpty then [] else [String.mk acc.reverse]
  | c :: cs, acc =>
    if c.isWhitespace then
      if acc.isEmpty then splitWsAux cs []
      else String.mk acc.reverse :: splitWsAux cs []
    else splitWsAux cs (c :: acc)

/-- Splits a raw cron string into its whitespace-separated fields. -/
def cronFieldsOf (cron : String) : List String :=
  splitWsAux cron.data []

/-- The parsed field record of cron-utils.ts (`CronField`): `second` is
present exactly for 6-field expressions. -/
structure CronField where
  second : Option String
  minute : String
  hour : String
  dayOfMonth : String
  month : String
  dayOfWeek : String
  deriving DecidableEq, Repr

/-- The field-count failure message of `parseCronExpression`. -/
def fieldCountError : String :=
  "Cron expression must have exactly 5 fields (minute hour day month weekday) or 6 fields (second minute hour day month weekday)"

/-- `parseCronExpression` (cron-utils.ts lines 24 to 57): 5 tokens map to
the minute-first record, 6 tokens to the second-first record, anything
else returns no fields plus the field-count message — failure as data. -/
def parseCronExpression (cron : String) : Option CronField × Option String :=
  let parts := cronFieldsOf cron
  if parts.length = 5 then
    (some { second := none, minute := parts.getD 0 "", hour := parts.getD 1 "",
            dayOfMonth := parts.getD 2 "", month := parts.getD 3 "",
            dayOfWeek := parts.getD 4 "" }, none)
  else if parts.length = 6 then
    (some { second := some (parts.getD 0 ""), minute := parts.getD 1 "",
            hour := parts.getD 2 "", dayOfMonth := parts.getD 3 "",
            month := parts.getD 4 "", dayOfWeek := parts.getD 5 "" }, none)
  else (none, some fieldCountError)

/-- Modelled from the spec: `CronExpressionParser.parse` of the external
cron-parser package is absent from the repository. Per the spec it rejects
any token count other than 5 or 6 with a message naming "5 fields" and
"6 fields", and otherwise checks per-field syntax, which stays abstract
here as the `fieldSyntaxError` parameter. `none` means the parse
succeeded, `some msg` that it threw with message `msg`. -/
def cronParserThrows (fieldSyntaxError : List String → Option String)
    (cron : String) : Option String :=
  let parts := cronFieldsOf cron
  if parts.length = 5 ∨ parts.length = 6 then fieldSyntaxError parts
  else some fieldCountError

/-- `validateCronExpression` (cron-utils.ts lines 60 to 74): a try/catch
around the external parse; a thrown message is surfaced verbatim as data,
with the JS `error?.message || 'Invalid cron expression'` fallback for an
empty message. -/
def validateCronExpression (fieldSyntaxError : List String → Option String)
    (cron : String) : Bool × Option String :=
  match cronParserThrows fieldSyntaxError cron with
  | none => (true, none)
  | some msg => (false, some (if msg = "" then "Invalid cron expression" else msg))

/-- The description computation of `describeCronExpression` (cron-utils.ts
lines 94 to 128) for an already-validated expression. The external
cronstrue renderer is passed in as `toString5`; `none` stands for a
cronstrue exception, which the surrounding try/catch turns into the
fallback text "Valid cron expression". -/
def cronDescription (toString5 : String → Option String) (cron : String) : String :=
  let parts := cronFieldsOf cron
  if parts.length = 6 then
    let secondField := parts.getD 0 ""
    let fiveFieldCron := joinSpace (parts.drop 1)
    if secondField = "*" then "Every second"
    else if strStartsWith secondField "*/" then
      match toString5 fiveFieldCron with
      | none => "Valid cron expression"
      | some fiveFieldDesc =>
        let interval := strDrop secondField 2
        let base := "Every " ++ interval ++ " second" ++ (if interval != "1" then "s" else "")
        if strIncludes (strToLower fiveFieldDesc) "every minute" then base
        else base ++ ", " ++ strToLower fiveFieldDesc
    else if secondField = "0" then
      match toString5 fiveFieldCron with
      | none => "Valid cron expression"
      | some d => d
    else
      match toString5 fiveFieldCron with
      | none => "Valid cron expression"
      | some d => d ++ " at second " ++ secondField
  else
    match toString5 cron with
    | none => "Valid cron expression"
    | some d => d

/-- Modelled from the spec: the single cronstrue output the spec pins down
— the 5-field expression "* * * * *" renders as "every minute" phrasing
("Every minute") — used only to instantiate the concrete scenario of the
describer claim. -/
def cronstrueModel (cron : String) : Option String :=
  if cron = "* * * * *" then some "Every minute" else none

/-- The recursion of the `for` loop in `generateNextRuns`: collect from
occurrence index `i` while fuel lasts, stopping silently at the first
index where the calculator produces nothing. -/
def nextRunsAux (occ : Nat → Option Nat) : Nat → Nat → List Nat
  | _, 0 => []
  | i, fuel + 1 =>
    match occ i with
    | none => []
    | some t => t :: nextRunsAux occ (i + 1) fuel

/-- `generateNextRuns` (cron-utils.ts lines 149 to 189), with the external
cron-parser interval abstracted as the stream `occ`: `occ i` is the i-th
upcoming occurrence instant, `none` once the calculator is exhausted or
throws. The function gathers at most five instants; formatting to locale
strings is display-only and not modelled. -/
def generateNextRuns (occ : Nat → Option Nat) : List Nat :=
  nextRunsAux occ 0 5

/-- JS truthiness applied to an optional numeric wire field: absent and 0
are both falsy, so `v || fallback` yields the fallback for either. -/
def jsOrNat (v : Option Nat) (fallback : Nat) : Nat :=
  match v with
  | some n => if n = 0 then fallback else n
  | none => fallback

/-- The status-code fabrication at the top of `transformExecution`
(part_003 lines 767 to 770, identical in webhook-details/index.tsx lines
40 to 43): the wire `response_code` if truthy, else 200 for a stored
success, 500 for a stored failure, 0 otherwise. -/
def fabricatedStatusCode (e : WireExecution) : Nat :=
  jsOrNat e.response_code
    (if e.status = "success" then 200 else if e.status = "failure" then 500 else 0)

/-- The success classification used by `transformExecution`, the chart and
the summary statistics: the fabricated code alone decides. -/
def isSuccessCode (code : Nat) : Bool :=
  decide (200 ≤ code) && decide (code < 300)

/-- The display status mapping inside `transformExecution` (part_003):
wire statuses map to the display enum, unknown strings fall back to
error. -/
def displayStatus (s : String) : String :=
  if s = "success" then "success"
  else if s = "failure" then "error"
  else if s = "timed_out" then "timeout"
  else if s = "queued" then "queued"
  else if s = "running" then "running"
  else "error"

/-- The slice of the transformed record that the chart, the badge and the
summary statistics read. -/
structure TransformedExecution where
  id : String
  status : String
  statusCode : Nat
  duration : Option Nat
  deriving DecidableEq, Repr

/-- `transformExecution` (part_003 lines 767 to 817) restricted to the
fields the verified consumers read. -/
def transformExecution (e : WireExecution) : TransformedExecution :=
  { id := e.id
    status := displayStatus e.status
    statusCode := fabricatedStatusCode e
    duration := e.duration_ms }

/-- The aggregate of the `summaryStats` memo. -/
structure SummaryStats where
  total : Nat
  success : Nat
  error : Nat
  avgDuration : Nat
  successRate : Nat
  deriving DecidableEq, Repr

/-- `summaryStats` (part_003 lines 988 to 1003): totals, the count of
records whose fabricated code is 2xx, the rest as errors, the rounded
average duration over records that carry one, and the rounded success
percentage. `Math.round` on the exact ratio is embedded as round-half-up
on naturals. -/
def summaryStats (executions : List TransformedExecution) : SummaryStats :=
  let total := executions.length
  let success := (executions.filter (fun e => isSuccessCode e.statusCode)).length
  let withDuration := executions.filter (fun e => e.duration.isSome)
  let durSum := (withDuration.map (fun e => e.duration.getD 0)).sum
  { total := total
    success := success
    error := total - success
    avgDuration :=
      if withDuration.length > 0 then
        (2 * durSum + withDuration.length) / (2 * withDuration.length)
      else 0
    successRate := if total > 0 then (200 * success + total) / (2 * total) else 0 }

/-- Rewrites the display status of every record while leaving every other
field alone; used to state that the statistics ignore the stored status. -/
def setStatus (l : List TransformedExecution) (f : TransformedExecution → String) :
    List TransformedExecution :=
  l.map (fun e => { e with status := f e })

/-- Concrete fixture: a full first page of 20 records with distinct ids. -/
def fullPage : ExecutionsPage :=
  { data := (List.range 20).map (fun i =>
      { id := String.mk [Char.ofNat (65 + i)]
        status := "success"
        response_code := some 200
        duration_ms := some 12
        created_at := i })
    total := 40 }

/-- Concrete fixture: an empty page. -/
def emptyPage : ExecutionsPage :=
  { data := [], total := 40 }

/-- Concrete fixture record. -/
def execA : WireExecution :=
  { id := "a", status := "success", response_code := some 200,
    duration_ms := some 3, created_at := 1 }

/-- Concrete fixture record. -/
def execB : WireExecution :=
  { id := "b", status := "failure", response_code := none,
    duration_ms := none, created_at := 2 }

/-- Concrete fixture: a page repeating the id of `execA`. -/
def pageAB : ExecutionsPage :=
  { data := [execA, execB], total := 2 }

/-- Concrete fixture: a state that has loaded `execA` and has a load-more
fetch in flight at offset 20. -/
def stateWithA : LoaderState :=
  { loadedExecutions := [execA], totalExecutions := 1,
    currentOffset := 20, hasMore := true, isLoadingMore := true }

/-- Concrete fixture: an operation sequence with an initial load, an
accepted load-more call, and the arrival of an overlapping page. -/
def opsW : List LoaderOp :=
  [LoaderOp.initLoad pageAB false, LoaderOp.callLoadMore false,
   LoaderOp.appendPage pageAB]

/-- Concrete fixture: an occurrence stream that never exhausts. -/
def occW : Nat → Option Nat := fun i => some (i + 1)

/-- Membership gives a true `contains` over string lists. -/
theorem contains_of_mem {l : List String} {a : String} (h : a ∈ l) :
    l.contains a = true := by
  simpa [List.contains, List.elem_iff] using h

/-- A stale page arriving while the offset sits at 0 changes nothing. -/
theorem appendEffect_offset_zero (page : ExecutionsPage) (s : LoaderState)
    (h : s.currentOffset = 0) : appendEffect page s = s := by
  unfold appendEffect
  rw [if_neg (by omega)]

/-- Appending a duplicate-free page to a duplicate-free state keeps the
loaded ids duplicate-free. -/
theorem appendEffect_nodup (page : ExecutionsPage) (s : LoaderState)
    (hpage : pageIdsNodup page) (hs : loadedIdsNodup s) :
    loadedIdsNodup (appendEffect page s) := by
  unfold appendEffect
  by_cases h1 : s.currentOffset > 0
  · rw [if_pos h1]
    by_cases h2 : page.data.length > 0
    · rw [if_pos h2]
      unfold loadedIdsNodup at hs ⊢
      simp only [List.map_append]
      refine List.Nodup.append hs ?_ ?_
      · exact hpage.sublist ((List.filter_sublist page.data).map _)
      · intro a ha hb
        simp only [List.mem_map] at hb
        obtain ⟨e, he, rfl⟩ := hb
        rw [List.mem_filter] at he
        have hcontains := contains_of_mem ha
        have := he.2
        rw [hcontains] at this
        simp at this
    · rw [if_neg h2]
      exact hs
  · rw [if_neg h1]
    exact hs

/-- Appending a page that repeats an id already present grows the list by
strictly less than the page length. -/
theorem appendEffect_length_lt (page : ExecutionsPage) (s : LoaderState)
    (hoff : 0 < s.currentOffset) (hne : 0 < page.data.length)
    (hdup : ∃ e ∈ page.data, e.id ∈ s.loadedExecutions.map (fun x => x.id)) :
    (appendEffect page s).loadedExecutions.length <
      s.loadedExecutions.length + page.data.length := by
  obtain ⟨e, he, hmem⟩ := hdup
  unfold appendEffect
  rw [if_pos hoff, if_pos hne]
  simp only [List.length_append]
  have hlt : (page.data.filter
      (fun e => !((s.loadedExecutions.map (fun x => x.id)).contains e.id))).length <
      page.data.length := by
    rw [List.length_filter_lt_length_iff_exists]
    refine ⟨e, he, ?_⟩
    rw [contains_of_mem hmem]
    simp
  omega

/-- One loader step keeps the loaded ids duplicate-free, provided the
pages it delivers are duplicate-free. -/
theorem applyOp_nodup (s : LoaderState) (op : LoaderOp)
    (hop : ∀ page ∈ opPages op, pageIdsNodup page)
    (hs : loadedIdsNodup s) : loadedIdsNodup (applyOp s op) := by
  cases op with
  | initLoad page r =>
    have hpage : pageIdsNodup page := hop page (by simp [opPages])
    simp only [applyOp]
    unfold initializeEffect
    split
    · exact hpage
    · exact hs
  | appendPage page =>
    exact appendEffect_nodup page s (hop page (by simp [opPages])) hs
  | callLoadMore q =>
    simp only [applyOp]
    unfold loadMore
    split
    · exact hs
    · exact hs
  | refreshStart =>
    simp only [applyOp]
    unfold refreshReset loadedIdsNodup
    simp
  | refreshDone result =>
    cases result with
    | none =>
      simp only [applyOp]
      unfold refreshComplete
      exact hs
    | some page =>
      have hpage : pageIdsNodup page := hop page (by simp [opPages])
      simp only [applyOp]
      unfold refreshComplete
      dsimp only
      split
      · exact hpage
      · exact hs
  | idChange =>
    simp only [applyOp]
    unfold idChangeReset initialLoaderState loadedIdsNodup
    simp

/-- Every operation sequence whose pages are duplicate-free keeps the
loaded ids duplicate-free. -/
theorem applyOps_nodup (ops : List LoaderOp)
    (h : ∀ op ∈ ops, ∀ page ∈ opPages op, pageIdsNodup page)
    (s : LoaderState) (hs : loadedIdsNodup s) :
    loadedIdsNodup (applyOps s ops) := by
  induction ops generalizing s with
  | nil => exact hs
  | cons op ops ih =>
    exact ih (fun o ho p hp => h o (List.mem_cons_of_mem _ ho) p hp)
      (applyOp s op) (applyOp_nodup s op (h op (List.mem_cons_self _ _)) hs)

/-- C1: over every sequence of loader operations whose server pages carry
pairwise distinct ids, the loaded execution list never holds two records
with the same id; and appending a load-more page that repeats an id
already present keeps the ids duplicate-free while growing the list by
strictly less than the full page size. -/
theorem loader_dedup_invariant (ops : List LoaderOp)
    (hpages : ∀ op ∈ ops, ∀ page ∈ opPages op, pageIdsNodup page)
    (page : ExecutionsPage) (s : LoaderState)
    (hoff : 0 < s.currentOffset) (hne : 0 < page.data.length)
    (hpage : pageIdsNodup page) (hs : loadedIdsNodup s)
    (hdup : ∃ e ∈ page.data, e.id ∈ s.loadedExecutions.map (fun x => x.id)) :
    loadedIdsNodup (applyOps initialLoaderState ops) ∧
    loadedIdsNodup (appendEffect page s) ∧
    (appendEffect page s).loadedExecutions.length <
      s.loadedExecutions.length + page.data.length :=
  ⟨applyOps_nodup ops hpages initialLoaderState
      (by unfold loadedIdsNodup initialLoaderState; simp),
   appendEffect_nodup page s hpage hs,
   appendEffect_length_lt page s hoff hne hdup⟩

/-- Witness for C1 at a concrete trace and a concrete overlapping page. -/
theorem loader_dedup_invariant_witness :
    ((∀ op ∈ opsW, ∀ page ∈ opPages op, pageIdsNodup page) ∧
     0 < stateWithA.currentOffset ∧ 0 < pageAB.data.length ∧
     pageIdsNodup pageAB ∧ loadedIdsNodup stateWithA ∧
     (∃ e ∈ pageAB.data, e.id ∈ stateWithA.loadedExecutions.map (fun x => x.id))) ∧
    (loadedIdsNodup (applyOps initialLoaderState opsW) ∧
     loadedIdsNodup (appendEffect pageAB stateWithA) ∧
     (appendEffect pageAB stateWithA).loadedExecutions.length <
       stateWithA.loadedExecutions.length + pageAB.data.length) :=
  ⟨⟨by decide, by decide, by decide, by decide, by decide, by decide⟩,
   loader_dedup_invariant opsW (by decide) pageAB stateWithA
     (by decide) (by decide) (by decide) (by decide) (by decide)⟩

/-- C2: calling `loadMore` while a fetch is in flight (`isLoadingMore`
true or the load-more query loading) or while `hasMore` is false is a
no-op: the state is unchanged and no fetch is triggered. -/
theorem loadMore_guard_noop (s : LoaderState) (queryLoading : Bool)
    (h : s.isLoadingMore = true ∨ s.hasMore = false ∨ queryLoading = true) :
    loadMore queryLoading s = (s, false) := by
  unfold loadMore
  rcases h with h | h | h <;> simp [h]

/-- Witness for C2: a call with the query loading flag set is a no-op. -/
theorem loadMore_guard_noop_witness :
    (initialLoaderState.isLoadingMore = true ∨ initialLoaderState.hasMore = false ∨
      (true : Bool) = true) ∧
    loadMore true initialLoaderState = (initialLoaderState, false) :=
  ⟨Or.inr (Or.inr rfl),
   loadMore_guard_noop initialLoaderState true (Or.inr (Or.inr rfl))⟩

/-- C3: once `refresh` has reset the offset to 0, a late-arriving stale
load-more page is a no-op, both before and after the refreshed first page
is written back: the loaded order is untouched and neither the total nor
`hasMore` is recomputed from the stale response. -/
theorem refresh_discards_stale_response (s : LoaderState)
    (stale : ExecutionsPage) (result : Option ExecutionsPage) :
    appendEffect stale (refreshReset s) = refreshReset s ∧
    appendEffect stale (refreshComplete result (refreshReset s)) =
      refreshComplete result (refreshReset s) := by
  constructor
  · exact appendEffect_offset_zero stale (refreshReset s) rfl
  · apply appendEffect_offset_zero
    cases result with
    | none => rfl
    | some page =>
      unfold refreshComplete
      dsimp only
      by_cases h : page.data.length > 0
      · rw [if_pos h]
        rfl
      · rw [if_neg h]
        rfl

/-- C4: when a load-more page arrives for a positive offset, the total is
left unchanged and `hasMore` is recomputed as page length equal to 20; an
empty page therefore clears `hasMore` immediately. -/
theorem loadMore_completion_frame (page : ExecutionsPage) (s : LoaderState)
    (hoff : 0 < s.currentOffset) :
    (appendEffect page s).totalExecutions = s.totalExecutions ∧
    (appendEffect page s).hasMore = (page.data.length == 20) ∧
    (page.data.length = 0 → (appendEffect page s).hasMore = false) := by
  unfold appendEffect
  rw [if_pos hoff]
  by_cases h : page.data.length > 0
  · rw [if_pos h]
    exact ⟨rfl, rfl, fun h0 => by omega⟩
  · rw [if_neg h]
    have h0 : page.data.length = 0 := by omega
    refine ⟨rfl, ?_, fun _ => rfl⟩
    rw [h0]
    rfl

/-- Witness for C4: an empty page arriving at offset 20 keeps the total
and clears `hasMore`. -/
theorem loadMore_completion_frame_witness :
    0 < stateWithA.currentOffset ∧
    ((appendEffect emptyPage stateWithA).totalExecutions = stateWithA.totalExecutions ∧
     (appendEffect emptyPage stateWithA).hasMore = (emptyPage.data.length == 20) ∧
     (emptyPage.data.length = 0 → (appendEffect emptyPage stateWithA).hasMore = false)) :=
  ⟨by decide, loadMore_completion_frame emptyPage stateWithA (by decide)⟩

/-- C5 counterexample: after the initial page fetch completes (one
completed page fetch of the full page size 20), `currentOffset` is 0, not
20 as the claim predicts. -/
theorem nextOffset_requested_counterexample :
    (applyOps initialLoaderState [LoaderOp.initLoad fullPage false]).currentOffset ≠
      20 * completedFetches [LoaderOp.initLoad fullPage false] := by decide

/-- One counted loader step preserves the offset accounting. -/
theorem applyOpCount_invariant (op : LoaderOp) (s : LoaderState) (n : Nat)
    (h : s.currentOffset = 20 * n) :
    (applyOpCount (s, n) op).1.currentOffset = 20 * (applyOpCount (s, n) op).2 := by
  cases op with
  | callLoadMore q =>
    simp only [applyOpCount]
    by_cases hc : (!s.isLoadingMore && s.hasMore && !q) = true
    · simp only [loadMore, if_pos hc]
      simp
      omega
    · simp only [loadMore, if_neg hc]
      simpa using h
  | refreshStart => simp [applyOpCount, refreshReset]
  | idChange => simp [applyOpCount, idChangeReset, initialLoaderState]
  | initLoad page r =>
    simp only [applyOpCount, applyOp]
    unfold initializeEffect
    split
    · simpa using h
    · exact h
  | appendPage page =>
    simp only [applyOpCount, applyOp]
    unfold appendEffect
    split
    · split
      · simpa using h
      · simpa using h
    · exact h
  | refreshDone result =>
    simp only [applyOpCount, applyOp]
    cases result with
    | none => simpa [refreshComplete] using h
    | some page =>
      unfold refreshComplete
      dsimp only
      split
      · simpa using h
      · simpa using h

/-- C5 amended: after every operation sequence, `currentOffset` equals 20
times the number of `loadMore` calls accepted by the guard since the last
reset — the records requested through load-more paging, independent of how
many records dedup retained. -/
theorem currentOffset_tracks_accepted_loadMores (ops : List LoaderOp) :
    (ops.foldl applyOpCount (initialLoaderState, 0)).1.currentOffset =
      20 * (ops.foldl applyOpCount (initialLoaderState, 0)).2 := by
  suffices h : ∀ p : LoaderState × Nat, p.1.currentOffset = 20 * p.2 →
      (ops.foldl applyOpCount p).1.currentOffset =
        20 * (ops.foldl applyOpCount p).2 by
    exact h (initialLoaderState, 0) rfl
  induction ops with
  | nil => intro p hp; exact hp
  | cons op ops ih =>
    intro p hp
    obtain ⟨s, n⟩ := p
    exact ih (applyOpCount (s, n) op) (applyOpCount_invariant op s n hp)

/-- C6 counterexample: a record with stored status queued and derived code
250 is styled with the dedicated queued badge, not the success badge the
claim requires for every code in the range 200 to 299. -/
theorem statusBadge_ignores_code_for_queued :
    getStatusBadge "queued" 250 = BadgeStyle.queuedBadge ∧
    getStatusBadge "queued" 250 ≠ BadgeStyle.successBadge := by decide

/-- C6 amended: in the part_003 page, queued, running and timeout records
get their own dedicated badge styling regardless of the derived HTTP code;
for every other status the badge is determined by the code alone — 2xx
success-styled, 4xx client-error-styled, everything else failure-styled.
The legacy details page applies the code-only rule unconditionally, for
every stored status. -/
theorem statusBadge_code_ranges (status : String) (statusCode : Nat) :
    (status = "queued" →
      getStatusBadge status statusCode = BadgeStyle.queuedBadge) ∧
    (status = "running" →
      getStatusBadge status statusCode = BadgeStyle.runningBadge) ∧
    (status = "timeout" →
      getStatusBadge status statusCode = BadgeStyle.timeoutBadge) ∧
    (status ≠ "queued" → status ≠ "running" → status ≠ "timeout" →
      (((200 ≤ statusCode ∧ statusCode < 300) →
        getStatusBadge status statusCode = BadgeStyle.successBadge) ∧
      ((400 ≤ statusCode ∧ statusCode < 500) →
        getStatusBadge status statusCode = BadgeStyle.clientErrorBadge) ∧
      (¬(200 ≤ statusCode ∧ statusCode < 300) →
        ¬(400 ≤ statusCode ∧ statusCode < 500) →
        getStatusBadge status statusCode = BadgeStyle.failureBadge))) ∧
    ((200 ≤ statusCode ∧ statusCode < 300) →
      getStatusBadgeLegacy status statusCode = BadgeStyle.successBadge) ∧
    ((400 ≤ statusCode ∧ statusCode < 500) →
      getStatusBadgeLegacy status statusCode = BadgeStyle.clientErrorBadge) ∧
    (¬(200 ≤ statusCode ∧ statusCode < 300) → ¬(400 ≤ statusCode ∧ statusCode < 500) →
      getStatusBadgeLegacy status statusCode = BadgeStyle.failureBadge) := by
  refine ⟨fun h => ?_, fun h => ?_, fun h => ?_, fun hq hr ht => ?_,
          fun h => ?_, fun h => ?_, fun h1 h2 => ?_⟩
  · subst h
    unfold getStatusBadge
    rw [if_pos rfl]
  · subst h
    unfold getStatusBadge
    rw [if_neg (by decide), if_pos rfl]
  · subst h
    unfold getStatusBadge
    rw [if_neg (by decide), if_neg (by decide), if_pos rfl]
  · unfold getStatusBadge
    rw [if_neg hq, if_neg hr, if_neg ht]
    refine ⟨fun h => ?_, fun h => ?_, fun h1 h2 => ?_⟩
    · rw [if_pos h]
    · rw [if_neg (by omega), if_pos h]
    · rw [if_neg h1, if_neg h2]
  · unfold getStatusBadgeLegacy
    rw [if_pos h]
  · unfold getStatusBadgeLegacy
    rw [if_neg (by omega), if_pos h]
  · unfold getStatusBadgeLegacy
    rw [if_neg h1, if_neg h2]

/-- Witness for C6 amended: the full case analysis instantiated at status
queued and code 250, where the dedicated-badge clause fires and the legacy
page still applies the code-only rule. -/
theorem statusBadge_code_ranges_witness :
    ((("queued" : String) = "queued" →
      getStatusBadge "queued" 250 = BadgeStyle.queuedBadge) ∧
    (("queued" : String) = "running" →
      getStatusBadge "queued" 250 = BadgeStyle.runningBadge) ∧
    (("queued" : String) = "timeout" →
      getStatusBadge "queued" 250 = BadgeStyle.timeoutBadge) ∧
    (("queued" : String) ≠ "queued" → ("queued" : String) ≠ "running" →
      ("queued" : String) ≠ "timeout" →
      (((200 ≤ 250 ∧ 250 < 300) →
        getStatusBadge "queued" 250 = BadgeStyle.successBadge) ∧
      ((400 ≤ 250 ∧ 250 < 500) →
        getStatusBadge "queued" 250 = BadgeStyle.clientErrorBadge) ∧
      (¬(200 ≤ 250 ∧ 250 < 300) → ¬(400 ≤ 250 ∧ 250 < 500) →
        getStatusBadge "queued" 250 = BadgeStyle.failureBadge))) ∧
    ((200 ≤ 250 ∧ 250 < 300) →
      getStatusBadgeLegacy "queued" 250 = BadgeStyle.successBadge) ∧
    ((400 ≤ 250 ∧ 250 < 500) →
      getStatusBadgeLegacy "queued" 250 = BadgeStyle.clientErrorBadge) ∧
    (¬(200 ≤ 250 ∧ 250 < 300) → ¬(400 ≤ 250 ∧ 250 < 500) →
      getStatusBadgeLegacy "queued" 250 = BadgeStyle.failureBadge)) ∧
    getStatusBadge "queued" 250 = BadgeStyle.queuedBadge ∧
    getStatusBadgeLegacy "queued" 250 = BadgeStyle.successBadge :=
  ⟨statusBadge_code_ranges "queued" 250,
   (statusBadge_code_ranges "queued" 250).1 rfl,
   (statusBadge_code_ranges "queued" 250).2.2.2.2.1 (by omega)⟩

/-- The collector never returns more instants than it has fuel for. -/
theorem nextRunsAux_length_le (occ : Nat → Option Nat) (fuel : Nat) :
    ∀ i, (nextRunsAux occ i fuel).length ≤ fuel := by
  induction fuel with
  | zero => intro i; simp [nextRunsAux]
  | succ fuel ih =>
    intro i
    unfold nextRunsAux
    cases h : occ i with
    | none => simp
    | some t => simpa using ih (i + 1)

/-- Once the calculator produces nothing at index `k`, the collector
started at `i ≤ k` returns at most `k - i` instants. -/
theorem nextRunsAux_stops (occ : Nat → Option Nat) (k : Nat) (hk : occ k = none) :
    ∀ fuel i, i ≤ k → (nextRunsAux occ i fuel).length ≤ k - i := by
  intro fuel
  induction fuel with
  | zero => intro i _; simp [nextRunsAux]
  | succ fuel ih =>
    intro i hik
    unfold nextRunsAux
    cases h : occ i with
    | none => simp
    | some t =>
      have hne : i ≠ k := by
        rintro rfl
        rw [hk] at h
        cases h
      have hrec := ih (i + 1) (by omega)
      simp only [List.length_cons]
      omega

/-- The collected instants are strictly increasing when the stream is. -/
theorem nextRunsAux_chain (occ : Nat → Option Nat)
    (hmono : ∀ i t u, occ i = some t → occ (i + 1) = some u → t < u) :
    ∀ fuel i, List.Chain' (· < ·) (nextRunsAux occ i fuel) := by
  intro fuel
  induction fuel with
  | zero => intro i; simp [nextRunsAux]
  | succ fuel ih =>
    intro i
    unfold nextRunsAux
    cases h : occ i with
    | none => simp
    | some t =>
      rw [List.chain'_cons']
      refine ⟨?_, ih (i + 1)⟩
      intro y hy
      cases fuel with
      | zero => simp [nextRunsAux] at hy
      | succ fuel =>
        unfold nextRunsAux at hy
        cases h2 : occ (i + 1) with
        | none =>
          rw [h2] at hy
          simp at hy
        | some u =>
          rw [h2] at hy
          simp at hy
          rw [← hy]
          exact hmono i t u h h2

/-- Every collected instant comes from the stream. -/
theorem nextRunsAux_mem (occ : Nat → Option Nat) (fuel : Nat) :
    ∀ i t, t ∈ nextRunsAux occ i fuel → ∃ j, occ j = some t := by
  induction fuel with
  | zero => intro i t ht; simp [nextRunsAux] at ht
  | succ fuel ih =>
    intro i t ht
    unfold nextRunsAux at ht
    cases h : occ i with
    | none =>
      rw [h] at ht
      simp at ht
    | some u =>
      rw [h] at ht
      simp only [List.mem_cons] at ht
      rcases ht with rfl | ht
      · exact ⟨i, h⟩
      · exact ih (i + 1) t ht

/-- C8: for a calculator stream whose occurrences strictly increase and
are strictly later than the reference instant, the projected next-run
sequence has length at most 5, is strictly increasing, every element is
strictly later than the reference instant, and exhaustion at index `k`
silently bounds the sequence to the instants computed so far. -/
theorem generateNextRuns_spec (occ : Nat → Option Nat) (fromInstant : Nat)
    (hlater : ∀ i t, occ i = some t → fromInstant < t)
    (hmono : ∀ i t u, occ i = some t → occ (i + 1) = some u → t < u) :
    (generateNextRuns occ).length ≤ 5 ∧
    List.Chain' (· < ·) (generateNextRuns occ) ∧
    (∀ t ∈ generateNextRuns occ, fromInstant < t) ∧
    (∀ k, occ k = none → (generateNextRuns occ).length ≤ k) :=
  ⟨nextRunsAux_length_le occ 5 0,
   nextRunsAux_chain occ hmono 5 0,
   fun t ht => by
     obtain ⟨j, hj⟩ := nextRunsAux_mem occ 5 0 t ht
     exact hlater j t hj,
   fun k hk => by simpa using nextRunsAux_stops occ k hk 5 0 (Nat.zero_le k)⟩

/-- Witness for C8 on a concrete never-exhausting stream. -/
theorem generateNextRuns_spec_witness :
    ((∀ i t, occW i = some t → 0 < t) ∧
     (∀ i t u, occW i = some t → occW (i + 1) = some u → t < u)) ∧
    ((generateNextRuns occW).length ≤ 5 ∧
     List.Chain' (· < ·) (generateNextRuns occW) ∧
     (∀ t ∈ generateNextRuns occW, 0 < t) ∧
     (∀ k, occW k = none → (generateNextRuns occW).length ≤ k)) := by
  have h1 : ∀ i t, occW i = some t → 0 < t := by
    intro i t h
    unfold occW at h
    injection h with h
    omega
  have h2 : ∀ i t u, occW i = some t → occW (i + 1) = some u → t < u := by
    intro i t u ha hb
    unfold occW at ha hb
    injection ha with ha
    injection hb with hb
    omega
  exact ⟨⟨h1, h2⟩, generateNextRuns_spec occW 0 h1 h2⟩

/-- C9: an input whose whitespace-separated token count is neither 5 nor 6
makes both parse and validate fail as data, with a message that names
"5 fields" and "6 fields". -/
theorem wrong_field_count_fails (fieldSyntaxError : List String → Option String)
    (cron : String)
    (h5 : (cronFieldsOf cron).length ≠ 5) (h6 : (cronFieldsOf cron).length ≠ 6) :
    (parseCronExpression cron).1 = none ∧
    (parseCronExpression cron).2 = some fieldCountError ∧
    strIncludes fieldCountError "5 fields" = true ∧
    strIncludes fieldCountError "6 fields" = true ∧
    (validateCronExpression fieldSyntaxError cron).1 = false ∧
    (validateCronExpression fieldSyntaxError cron).2 = some fieldCountError := by
  have hor : ¬((cronFieldsOf cron).length = 5 ∨ (cronFieldsOf cron).length = 6) := by
    omega
  unfold parseCronExpression validateCronExpression cronParserThrows
  rw [if_neg h5, if_neg h6, if_neg hor]
  refine ⟨rfl, rfl, by decide, by decide, rfl, ?_⟩
  dsimp only
  rw [if_neg (by decide)]

/-- Witness for C9 at the 3-token input "a b c". -/
theorem wrong_field_count_fails_witness :
    ((cronFieldsOf "a b c").length ≠ 5 ∧ (cronFieldsOf "a b c").length ≠ 6) ∧
    ((parseCronExpression "a b c").1 = none ∧
     (parseCronExpression "a b c").2 = some fieldCountError ∧
     strIncludes fieldCountError "5 fields" = true ∧
     strIncludes fieldCountError "6 fields" = true ∧
     (validateCronExpression (fun _ => none) "a b c").1 = false ∧
     (validateCronExpression (fun _ => none) "a b c").2 = some fieldCountError) :=
  ⟨⟨by decide, by decide⟩,
   wrong_field_count_fails (fun _ => none) "a b c" (by decide) (by decide)⟩

/-- On a 6-token input the describer reduces to the second-field case
analysis over the joined 5-field remainder. -/
theorem cronDescription_of_six (toString5 : String → Option String)
    (cron sf m h dom mo dow : String)
    (hparts : cronFieldsOf cron = [sf, m, h, dom, mo, dow]) :
    cronDescription toString5 cron =
      (if sf = "*" then "Every second"
       else if strStartsWith sf "*/" then
         match toString5 (joinSpace [m, h, dom, mo, dow]) with
         | none => "Valid cron expression"
         | some fiveFieldDesc =>
           if strIncludes (strToLower fiveFieldDesc) "every minute" then
             stepSecondsBase sf
           else stepSecondsBase sf ++ ", " ++ strToLower fiveFieldDesc
       else if sf = "0" then
         match toString5 (joinSpace [m, h, dom, mo, dow]) with
         | none => "Valid cron expression"
         | some d => d
       else
         match toString5 (joinSpace [m, h, dom, mo, dow]) with
         | none => "Valid cron expression"
         | some d => d ++ " at second " ++ sf) := by
  unfold cronDescription
  rw [hparts]
  rfl

/-- C7: for a 6-field expression whose 5-field remainder renders as
`desc`, the description is driven by the second field: a bare star gives
"Every second"; a step pattern gives the "Every N second(s)" phrase,
suffixed with the lowercased 5-field description only if that description
is not itself "every minute"; a literal 0 defers to the 5-field
description exactly; any other literal S appends "at second S". The
concrete scenario: describing the 10-second step expression against the
spec-modelled renderer yields exactly "Every 10 seconds". -/
theorem describe_seconds_cases (toString5 : String → Option String)
    (cron sf m h dom mo dow desc : String)
    (hparts : cronFieldsOf cron = [sf, m, h, dom, mo, dow])
    (hdesc : toString5 (joinSpace [m, h, dom, mo, dow]) = some desc) :
    (sf = "*" → cronDescription toString5 cron = "Every second") ∧
    (strStartsWith sf "*/" = true → sf ≠ "*" →
      ((cronDescription toString5 cron = stepSecondsBase sf ∨
        cronDescription toString5 cron =
          stepSecondsBase sf ++ ", " ++ strToLower desc) ∧
       (cronDescription toString5 cron =
          stepSecondsBase sf ++ ", " ++ strToLower desc →
         strToLower desc ≠ "every minute"))) ∧
    (sf = "0" → cronDescription toString5 cron = desc) ∧
    (sf ≠ "*" → sf ≠ "0" → strStartsWith sf "*/" = false →
      cronDescription toString5 cron = desc ++ " at second " ++ sf) ∧
    cronDescription cronstrueModel "*/10 * * * * *" = "Every 10 seconds" := by
  have heq := cronDescription_of_six toString5 cron sf m h dom mo dow hparts
  refine ⟨?_, ?_, ?_, ?_, by decide⟩
  · intro h1
    rw [heq, if_pos h1]
  · intro hsw hne
    rw [heq, if_neg hne, if_pos hsw, hdesc]
    dsimp only
    by_cases hinc : strIncludes (strToLower desc) "every minute" = true
    · rw [if_pos hinc]
      refine ⟨Or.inl rfl, ?_⟩
      intro hcontra
      have hlen := congrArg String.length hcontra
      rw [String.length_append, String.length_append] at hlen
      have h2 : (", " : String).length = 2 := rfl
      omega
    · rw [if_neg hinc]
      refine ⟨Or.inr rfl, ?_⟩
      intro _ hem
      exact hinc (by rw [hem]; decide)
  · intro h0
    subst h0
    rw [heq, if_neg (by decide), if_neg (by decide), if_pos rfl, hdesc]
  · intro h1 h2 h3
    rw [heq, if_neg h1, if_neg (by simp [h3]), if_neg h2, hdesc]

/-- Witness for C7 at the 10-second step expression with the spec-modelled
renderer. -/
theorem describe_seconds_cases_witness :
    (cronFieldsOf "*/10 * * * * *" = ["*/10", "*", "*", "*", "*", "*"] ∧
     cronstrueModel (joinSpace ["*", "*", "*", "*", "*"]) = some "Every minute") ∧
    ((("*/10" : String) = "*" →
        cronDescription cronstrueModel "*/10 * * * * *" = "Every second") ∧
     (strStartsWith "*/10" "*/" = true → ("*/10" : String) ≠ "*" →
       ((cronDescription cronstrueModel "*/10 * * * * *" = stepSecondsBase "*/10" ∨
         cronDescription cronstrueModel "*/10 * * * * *" =
           stepSecondsBase "*/10" ++ ", " ++ strToLower "Every minute") ∧
        (cronDescription cronstrueModel "*/10 * * * * *" =
           stepSecondsBase "*/10" ++ ", " ++ strToLower "Every minute" →
          strToLower "Every minute" ≠ "every minute"))) ∧
     (("*/10" : String) = "0" →
        cronDescription cronstrueModel "*/10 * * * * *" = "Every minute") ∧
     (("*/10" : String) ≠ "*" → ("*/10" : String) ≠ "0" →
        strStartsWith "*/10" "*/" = false →
        cronDescription cronstrueModel "*/10 * * * * *" =
          "Every minute" ++ " at second " ++ "*/10") ∧
     cronDescription cronstrueModel "*/10 * * * * *" = "Every 10 seconds") :=
  ⟨⟨by decide, by decide⟩,
   describe_seconds_cases cronstrueModel "*/10 * * * * *" "*/10" "*" "*" "*" "*" "*"
     "Every minute" (by decide) (by decide)⟩

/-- Rewriting every stored display status leaves the summary statistics
unchanged: they read only the fabricated code and the duration. -/
theorem summaryStats_setStatus (l : List TransformedExecution)
    (f : TransformedExecution → String) :
    summaryStats (setStatus l f) = summaryStats l := by
  unfold summaryStats setStatus
  simp only [List.length_map, List.filter_map, List.map_map, Function.comp_def]

/-- C10: a record whose wire response code is absent or 0 gets a
fabricated code — 200 for stored success, 500 for stored failure, 0
otherwise — and the summary statistics are computed from the fabricated
codes alone: rewriting every stored status leaves them unchanged, the
success count is the count of 2xx codes, the error count is the rest, and
the success rate is derived from those counts. -/
theorem fabricated_code_drives_stats (e : WireExecution)
    (hfalsy : e.response_code = none ∨ e.response_code = some 0)
    (l : List TransformedExecution) (f : TransformedExecution → String) :
    (transformExecution e).statusCode =
      (if e.status = "success" then 200
       else if e.status = "failure" then 500 else 0) ∧
    summaryStats (setStatus l f) = summaryStats l ∧
    (summaryStats l).success =
      (l.filter (fun x => isSuccessCode x.statusCode)).length ∧
    (summaryStats l).error =
      l.length - (l.filter (fun x => isSuccessCode x.statusCode)).length ∧
    (summaryStats l).successRate =
      (if l.length > 0 then
        (200 * (l.filter (fun x => isSuccessCode x.statusCode)).length + l.length) /
          (2 * l.length)
       else 0) := by
  refine ⟨?_, summaryStats_setStatus l f, rfl, rfl, rfl⟩
  rcases hfalsy with h | h <;>
    simp [transformExecution, fabricatedStatusCode, jsOrNat, h]

/-- Witness for C10 at a concrete failure record with an absent response
code. -/
theorem fabricated_code_drives_stats_witness :
    (execB.response_code = none ∨ execB.response_code = some 0) ∧
    ((transformExecution execB).statusCode =
      (if execB.status = "success" then 200
       else if execB.status = "failure" then 500 else 0) ∧
    summaryStats (setStatus [transformExecution execB] (fun _ => "queued")) =
      summaryStats [transformExecution execB] ∧
    (summaryStats [transformExecution execB]).success =
      ([transformExecution execB].filter (fun x => isSuccessCode x.statusCode)).length ∧
    (summaryStats [transformExecution execB]).error =
      [transformExecution execB].length -
        ([transformExecution execB].filter (fun x => isSuccessCode x.statusCode)).length ∧
    (summaryStats [transformExecution execB]).successRate =
      (if [transformExecution execB].length > 0 then
        (200 * ([transformExecution execB].filter
            (fun x => isSuccessCode x.statusCode)).length +
          [transformExecution execB].length) /
          (2 * [transformExecution execB].length)
       else 0)) :=
  ⟨Or.inl rfl,
   fabricated_code_drives_stats execB (Or.inl rfl)
     [transformExecution execB] (fun _ => "queued")⟩

end Kit
